import Mathlib

/-!
Verification of the ai-text-refiner repository: a shallow embedding of the
prompt service (callGemini, refineText, convertBanglishToEnglish and the
duplicate refineText in services/geminiService.ts) and of the interaction
controller (the App component's state and handlers), with theorems checking
the specification's claims against these definitions.
-/

/-- Models JavaScript String.prototype.trim: strip leading and trailing
whitespace characters. -/
def jsTrim (s : String) : String :=
  String.mk (((s.data.dropWhile Char.isWhitespace).reverse.dropWhile Char.isWhitespace).reverse)

/-- Models JavaScript String.prototype.toLowerCase (ASCII case folding). -/
def jsToLower (s : String) : String :=
  String.mk (s.data.map Char.toLower)

/-- Boolean test that the first character list is a prefix of the second. -/
def isPrefixL : List Char → List Char → Bool
  | [], _ => true
  | _ :: _, [] => false
  | a :: as, b :: bs => a = b && isPrefixL as bs

/-- Models JavaScript String.prototype.startsWith. -/
def jsStartsWith (s pat : String) : Bool :=
  isPrefixL pat.data s.data

/-- The sampling configuration object passed to ai.models.generateContent. -/
structure GenConfig where
  systemInstruction : String
  temperature : ℚ
  topP : ℚ
deriving DecidableEq

/-- One request to the external generation API, as built by the services. -/
structure GenRequest where
  model : String
  contents : String
  config : GenConfig
deriving DecidableEq

/-- The outcome of one call to the external generation API: a text payload, or
a raised fault. `isError` records whether the thrown value is an Error instance
carrying the given message (JavaScript code can throw non-Error values, which
reach the catch block's fallback branch). -/
inductive ApiOutcome where
  | success (text : String)
  | failure (isError : Bool) (message : String)

/-- The external generation API as an oracle from requests to outcomes. -/
abbrev GenApi := GenRequest → ApiOutcome

/-- Embeds callGemini (the shared helper of the live gemini service): an
emptiness guard on the whole prompt, one API call with the fixed model and
sampling parameters, the response trimmed, any fault caught and converted to a
string. Returns the result together with the list of API requests issued. -/
def callGemini (gen : GenApi) (prompt systemInstruction : String) :
    String × List GenRequest :=
  if jsTrim prompt = "" then ("", [])
  else
    let req : GenRequest :=
      { model := "gemini-2.5-flash"
        contents := prompt
        config :=
          { systemInstruction := systemInstruction
            temperature := 0.8
            topP := 0.9 } }
    match gen req with
    | ApiOutcome.success t => (jsTrim t, [req])
    | ApiOutcome.failure true msg => ("Error: Failed to process text. " ++ msg, [req])
    | ApiOutcome.failure false _ => ("An unknown error occurred while processing text.", [req])

/-- The system instruction of the live refineText (the duplicate in
services/geminiService.ts interpolates the Language enum values and yields the
same text). -/
def refineSystemInstruction : String :=
  "You are a linguistic expert specializing in text transformation. Your task is to rewrite the user's text into a specific tone while preserving the core message and the original language. You are proficient in English, Banglish (Bengali in English letters), and Bengali (Bangla script). Do not add any extra commentary, just provide the refined text."

/-- The refine prompt template, shared verbatim by both refineText copies. -/
def refinePrompt (language tone text : String) : String :=
  "\n    Please refine the following '" ++ language ++ "' text into a '" ++ tone ++
    "' tone.\n    Ensure the output remains in '" ++ language ++
    "'.\n\n    Original Text:\n    ---\n    " ++ text ++ "\n    ---\n  "

/-- The system instruction of convertBanglishToEnglish. -/
def banglishSystemInstruction : String :=
  "You are an expert linguist specializing in translating and transliterating 'Banglish' (Bengali written using the English alphabet) into fluent, grammatically correct English. After translating, you will rewrite the text into a specific tone, while preserving the original message. Your final output must only be the translated and toned English text, with no extra commentary."

/-- The prompt template of convertBanglishToEnglish. -/
def banglishPrompt (tone text : String) : String :=
  "\n    Please translate the following 'Banglish' text into English with a '" ++ tone ++
    "' tone.\n\n    Original Banglish Text:\n    ---\n    " ++ text ++ "\n    ---\n  "

/-- Embeds the live refineText: builds the refine prompt and delegates to
callGemini. -/
def refineText (gen : GenApi) (text language tone : String) :
    String × List GenRequest :=
  callGemini gen (refinePrompt language tone text) refineSystemInstruction

/-- Embeds convertBanglishToEnglish: builds the translation prompt and
delegates to callGemini. -/
def convertBanglishToEnglish (gen : GenApi) (text tone : String) :
    String × List GenRequest :=
  callGemini gen (banglishPrompt tone text) banglishSystemInstruction

namespace Services

/-- Embeds the refineText duplicate in services/geminiService.ts: its emptiness
guard tests the input text itself, and its catch branch uses the refine-specific
error wording. -/
def refineText (gen : GenApi) (text language tone : String) :
    String × List GenRequest :=
  if jsTrim text = "" then ("", [])
  else
    let req : GenRequest :=
      { model := "gemini-2.5-flash"
        contents := refinePrompt language tone text
        config :=
          { systemInstruction := refineSystemInstruction
            temperature := 0.8
            topP := 0.9 } }
    match gen req with
    | ApiOutcome.success t => (jsTrim t, [req])
    | ApiOutcome.failure true msg => ("Error: Failed to refine text. " ++ msg, [req])
    | ApiOutcome.failure false _ => ("An unknown error occurred while refining text.", [req])

end Services

/-- The Tone enum values of types.ts. -/
def Tone.PROFESSIONAL : String := "Professional"

/-- The Tone enum value CASUAL. -/
def Tone.CASUAL : String := "Casual"

/-- The Tone enum value CRAZY. -/
def Tone.CRAZY : String := "Crazy"

/-- The Tone enum value COOL. -/
def Tone.COOL : String := "Cool"

/-- predefinedTones = Object.values(Tone), in declaration order. -/
def predefinedTones : List String :=
  [Tone.PROFESSIONAL, Tone.CASUAL, Tone.CRAZY, Tone.COOL]

/-- Modelled from the spec: the Task enum of types.ts is imported by the App
component but the enum's declaration is missing from the provided sources; the
spec fixes the closed set {refine-as-English, refine-as-Banglish,
refine-as-Bangla, convert-Banglish-to-English} (the source name Task collides with a core Lean name, hence the apostrophe). -/
inductive Task' where
  | REFINE_ENGLISH
  | REFINE_BANGLISH
  | REFINE_BANGLA
  | BANGLISH_TO_ENGLISH
deriving DecidableEq

/-- Modelled from the spec: display labels for the Task values (their enum
string values are not in the provided sources; the label is only used in the
unreachable misconfiguration branch of handleRefine). -/
def taskLabel : Task' → String
  | Task'.REFINE_ENGLISH => "refine-as-English"
  | Task'.REFINE_BANGLISH => "refine-as-Banglish"
  | Task'.REFINE_BANGLA => "refine-as-Bangla"
  | Task'.BANGLISH_TO_ENGLISH => "convert-Banglish-to-English"

/-- taskToLanguageMap: the three refine tasks map to language labels; the
conversion task is absent from the map (lookup yields none). -/
def taskToLanguageMap : Task' → Option String
  | Task'.REFINE_ENGLISH => some "English"
  | Task'.REFINE_BANGLISH => some "Banglish (Bengali in English letters)"
  | Task'.REFINE_BANGLA => some "Bengali (Bangla script)"
  | Task'.BANGLISH_TO_ENGLISH => none

/-- Modelled from the spec: JSON escaping of one character as the platform's
JSON.stringify performs it on the quote and backslash characters (JSON.stringify
and JSON.parse are platform builtins, not repository code; control-character
escapes are not needed for the round-trip property). -/
def escChar (c : Char) : List Char :=
  if c = '"' ∨ c = '\\' then ['\\', c] else [c]

/-- JSON escaping of a whole character list. -/
def escL : List Char → List Char
  | [] => []
  | c :: cs => escChar c ++ escL cs

/-- One serialized JSON string element, surrounded by quotes. -/
def encItem (s : String) : List Char :=
  '"' :: (escL s.data ++ ['"'])

/-- The serialized elements after the first one, each preceded by a comma. -/
def encTail : List String → List Char
  | [] => []
  | s :: ss => ',' :: (encItem s ++ encTail ss)

/-- All serialized elements of the array body. -/
def encItems : List String → List Char
  | [] => []
  | s :: ss => encItem s ++ encTail ss

/-- Modelled from the spec: JSON.stringify on an array of strings, as written
to the durable store under the fixed storage key. -/
def jsonStringifyList (l : List String) : String :=
  String.mk ('[' :: (encItems l ++ [']']))

/-- Modelled from the spec: the string-array parser state machine behind
JSON.parse as used on the stored custom-tone list. The first argument is
some acc while inside a string literal (acc holds the decoded characters in
reverse), none between elements; the second accumulates the decoded strings. -/
def pRun : Option (List Char) → List String → List Char → Option (List String)
  | _, _, [] => none
  | some acc, strs, '"' :: cs => pRun none (strs ++ [String.mk acc.reverse]) cs
  | some acc, strs, '\\' :: d :: ds => pRun (some (d :: acc)) strs ds
  | some _, _, ['\\'] => none
  | some acc, strs, c :: cs => pRun (some (c :: acc)) strs cs
  | none, strs, [']'] => some strs
  | none, strs, ',' :: '"' :: ds => pRun (some []) strs ds
  | none, _, _ :: _ => none

/-- Modelled from the spec: JSON.parse specialised to arrays of strings;
none models a thrown parse error. -/
def jsonParseList (s : String) : Option (List String) :=
  match s.data with
  | ['[', ']'] => some []
  | '[' :: '"' :: rest => pRun (some []) [] rest
  | _ => none

/-- The App component's state (the useState hooks), together with the durable
store's value at the fixed custom-tones key (localStorage is an external
collaborator; `store` models the string it holds). -/
structure AppState where
  inputText : String
  selectedTask : Task'
  selectedTone : String
  outputText : String
  isLoading : Bool
  apiError : Option String
  formError : Option String
  isCopied : Bool
  customTones : List String
  customToneInput : String
  store : String
deriving DecidableEq

/-- allTones = [...predefinedTones, ...customTones]. -/
def allTones (s : AppState) : List String :=
  predefinedTones ++ s.customTones

/-- The save effect: on every change to customTones the serialized list is
written to the store at the fixed key. -/
def persistTones (s : AppState) : AppState :=
  { s with store := jsonStringifyList s.customTones }

/-- Embeds handleAddCustomTone: trim the pending input, reject an empty result
or a case-insensitive duplicate against the combined tone list with a form
error, otherwise append, clear the input and the form error (the changed list
is then persisted by the save effect). -/
def handleAddCustomTone (s : AppState) : AppState :=
  let newTone := jsTrim s.customToneInput
  if newTone = "" then
    { s with formError := some "Custom tone cannot be empty." }
  else if (allTones s).any (fun t => jsToLower t == jsToLower newTone) then
    { s with formError := some "This tone already exists." }
  else
    persistTones
      { s with
        customTones := s.customTones ++ [newTone]
        customToneInput := ""
        formError := none }

/-- Embeds handleRemoveCustomTone: filter the named tone out of the custom
list (exact string comparison), reset the selection to Professional when the
removed tone was selected (the changed list is then persisted by the save
effect). -/
def handleRemoveCustomTone (toneToRemove : String) (s : AppState) : AppState :=
  let s1 := { s with customTones := s.customTones.filter (fun t => t ≠ toneToRemove) }
  persistTones
    (if s.selectedTone = toneToRemove then { s1 with selectedTone := Tone.PROFESSIONAL } else s1)

/-- The tail of handleRefine: route the service's result by the "Error:"
marker into the API-error state or the output state, and clear the loading
flag. -/
def finishRefine (s1 : AppState) (result : String) : AppState :=
  if jsStartsWith result "Error:" then
    { s1 with apiError := some result, isLoading := false }
  else
    { s1 with outputText := result, isLoading := false }

/-- Embeds handleRefine: abort with an error on blank input, otherwise set the
loading flag, clear prior output and error, dispatch on the selected task to
the matching prompt-service operation and route the result. Returns the new
state together with the list of API requests issued. -/
def handleRefine (gen : GenApi) (s : AppState) : AppState × List GenRequest :=
  if jsTrim s.inputText = "" then
    ({ s with apiError := some "Please enter some text to process.", outputText := "" }, [])
  else
    let s1 : AppState :=
      { s with isLoading := true, apiError := none, outputText := "", isCopied := false }
    match s.selectedTask with
    | Task'.BANGLISH_TO_ENGLISH =>
      let r := convertBanglishToEnglish gen s.inputText s.selectedTone
      (finishRefine s1 r.1, r.2)
    | t =>
      match taskToLanguageMap t with
      | none =>
        ({ s1 with
            apiError := some ("Error: Task '" ++ taskLabel t ++ "' is not configured correctly.")
            isLoading := false }, [])
      | some language =>
        let r := refineText gen s.inputText language s.selectedTone
        (finishRefine s1 r.1, r.2)

/-- One user interaction with the custom-tone list: typing an input and
clicking Add, or clicking a tone's Remove control. -/
inductive ToneOp where
  | add (input : String)
  | remove (tone : String)

/-- Apply one custom-tone operation to the controller state. -/
def applyOp (s : AppState) : ToneOp → AppState
  | ToneOp.add i => handleAddCustomTone { s with customToneInput := i }
  | ToneOp.remove t => handleRemoveCustomTone t s

/-- Replay a sequence of custom-tone operations on the controller state. -/
def replayOps (s : AppState) (ops : List ToneOp) : AppState :=
  ops.foldl applyOp s

/-- The same custom-tone operations replayed on a bare in-memory list. -/
def applyOpMem (l : List String) : ToneOp → List String
  | ToneOp.add i =>
    let t := jsTrim i
    if t = "" then l
    else if (predefinedTones ++ l).any (fun x => jsToLower x == jsToLower t) then l
    else l ++ [t]
  | ToneOp.remove t => l.filter (fun x => x ≠ t)

/-- Replay a sequence of custom-tone operations on a bare in-memory list. -/
def replayMem (l : List String) (ops : List ToneOp) : List String :=
  ops.foldl applyOpMem l

/-- A string built from an explicit character list is empty exactly when the
list is. -/
theorem stringMk_eq_empty (l : List Char) : String.mk l = "" ↔ l = [] := by
  constructor
  · intro h
    have := congrArg String.data h
    simpa using this
  · intro h
    subst h
    rfl

/-- Dropping a prefix of p-satisfying elements does not change whether every
element satisfies p. -/
theorem all_dropWhile_iff (p : Char → Bool) (l : List Char) :
    (∀ c ∈ l.dropWhile p, p c = true) ↔ ∀ c ∈ l, p c = true := by
  induction l with
  | nil => simp
  | cons c l ih =>
    by_cases h : p c = true
    · simp [List.dropWhile_cons, h, ih]
    · simp [List.dropWhile_cons, h]

/-- jsTrim yields the empty string exactly when every character of the input
is whitespace. -/
theorem jsTrim_eq_empty_iff (s : String) :
    jsTrim s = "" ↔ ∀ c ∈ s.data, c.isWhitespace = true := by
  unfold jsTrim
  rw [stringMk_eq_empty, List.reverse_eq_nil_iff, List.dropWhile_eq_nil_iff]
  constructor
  · intro h c hc
    exact (all_dropWhile_iff _ _).mp (fun d hd => h d (List.mem_reverse.mpr hd)) c hc
  · intro h c hc
    exact (all_dropWhile_iff _ _).mpr h c (List.mem_reverse.mp hc)

/-- A string holding at least one non-whitespace character does not trim to
the empty string. -/
theorem jsTrim_ne_of_mem (s : String) (c : Char) (hc : c ∈ s.data)
    (hw : c.isWhitespace = false) : jsTrim s ≠ "" := by
  intro h
  have := (jsTrim_eq_empty_iff s).mp h c hc
  rw [hw] at this
  exact Bool.false_ne_true this

/-- A character of the left operand of a string append is a character of the
append. -/
theorem mem_data_append_left (a b : String) (c : Char) (h : c ∈ a.data) :
    c ∈ (a ++ b).data := by
  rw [String.data_append]
  exact List.mem_append_left _ h

/-- The refine prompt always holds non-whitespace template text, whatever the
language, tone and input text are. -/
theorem refinePrompt_trim_ne (language tone text : String) :
    jsTrim (refinePrompt language tone text) ≠ "" := by
  apply jsTrim_ne_of_mem _ 'P'
  · unfold refinePrompt
    repeat apply mem_data_append_left
    decide
  · decide

/-- The Banglish translation prompt always holds non-whitespace template text,
whatever the tone and input text are. -/
theorem banglishPrompt_trim_ne (tone text : String) :
    jsTrim (banglishPrompt tone text) ≠ "" := by
  apply jsTrim_ne_of_mem _ 'P'
  · unfold banglishPrompt
    repeat apply mem_data_append_left
    decide
  · decide

/-- A list is a Boolean prefix of itself extended by anything. -/
theorem isPrefixL_append (a r : List Char) : isPrefixL a (a ++ r) = true := by
  induction a with
  | nil => rfl
  | cons c a ih => simp [isPrefixL, ih]

/-- A string starts with any string it extends on the right. -/
theorem jsStartsWith_append (a b : String) : jsStartsWith (a ++ b) a = true := by
  unfold jsStartsWith
  rw [String.data_append]
  exact isPrefixL_append _ _

/-- C1: the claim fails on the live service. For empty input text,
convertBanglishToEnglish still issues one API call and returns the model's
trimmed output rather than the empty string, because callGemini's emptiness
guard tests the templated prompt — which is never whitespace-only — instead of
the input text (the guard is dead code for both in-repository callers; the
duplicate service checks the text itself, showing the intended behaviour). -/
theorem convertBanglishToEnglish_blank_input_calls_api :
    (convertBanglishToEnglish (fun _ => ApiOutcome.success "ok") "" "Casual").2.length = 1 ∧
    (convertBanglishToEnglish (fun _ => ApiOutcome.success "ok") "" "Casual").1 = "ok" := by
  decide

/-- C2, counterexample: a fault whose thrown value is not an Error instance is
converted to the fixed fallback message, which does not begin with the
"Error:" marker. -/
theorem promptService_nonError_fault_no_marker :
    (convertBanglishToEnglish (fun _ => ApiOutcome.failure false "boom") "hello" "Casual").1 =
      "An unknown error occurred while processing text." ∧
    jsStartsWith
      (convertBanglishToEnglish (fun _ => ApiOutcome.failure false "boom") "hello" "Casual").1
      "Error:" = false := by
  decide

/-- C2, amended: a fault from the external call never escapes any prompt
service operation — each returns a string; when the fault is an Error instance
the string is the "Error:" marker followed by a message, and otherwise it is
the fixed unknown-error fallback (which carries no marker). -/
theorem promptService_fault_caught (isError : Bool) (msg text language tone : String)
    (h : jsTrim text ≠ "") :
    ((refineText (fun _ => ApiOutcome.failure isError msg) text language tone).1 =
      if isError then "Error: Failed to process text. " ++ msg
      else "An unknown error occurred while processing text.") ∧
    ((convertBanglishToEnglish (fun _ => ApiOutcome.failure isError msg) text tone).1 =
      if isError then "Error: Failed to process text. " ++ msg
      else "An unknown error occurred while processing text.") ∧
    ((Services.refineText (fun _ => ApiOutcome.failure isError msg) text language tone).1 =
      if isError then "Error: Failed to refine text. " ++ msg
      else "An unknown error occurred while refining text.") ∧
    jsStartsWith ("Error: Failed to process text. " ++ msg) "Error:" = true := by
  refine ⟨?_, ?_, ?_, ?_⟩
  · simp only [refineText, callGemini, if_neg (refinePrompt_trim_ne language tone text)]
    cases isError <;> simp
  · simp only [convertBanglishToEnglish, callGemini, if_neg (banglishPrompt_trim_ne tone text)]
    cases isError <;> simp
  · simp only [Services.refineText, if_neg h]
    cases isError <;> simp
  · have : ("Error: Failed to process text. " : String) = "Error:" ++ " Failed to process text. " := by
      decide
    rw [this, String.append_assoc]
    exact jsStartsWith_append _ _

/-- C3: a fault carrying the message "quota exceeded" yields exactly the fixed
error string (the refine-specific wording in the duplicate service), and the
controller routes that string into the API-error state while the output state
stays empty. -/
theorem quota_fault_to_apiError (s : AppState) (text language tone : String)
    (h : jsTrim s.inputText ≠ "") (ht : jsTrim text ≠ "") :
    (refineText (fun _ => ApiOutcome.failure true "quota exceeded") text language tone).1 =
      "Error: Failed to process text. quota exceeded" ∧
    (Services.refineText (fun _ => ApiOutcome.failure true "quota exceeded") text language tone).1 =
      "Error: Failed to refine text. quota exceeded" ∧
    (handleRefine (fun _ => ApiOutcome.failure true "quota exceeded") s).1.apiError =
      some "Error: Failed to process text. quota exceeded" ∧
    (handleRefine (fun _ => ApiOutcome.failure true "quota exceeded") s).1.outputText = "" := by
  have hb : (convertBanglishToEnglish
      (fun _ => ApiOutcome.failure true "quota exceeded") s.inputText s.selectedTone).1 =
      "Error: Failed to process text. quota exceeded" := by
    simp only [convertBanglishToEnglish, callGemini,
      if_neg (banglishPrompt_trim_ne s.selectedTone s.inputText)]
    decide
  have hr : ∀ language : String, (refineText
      (fun _ => ApiOutcome.failure true "quota exceeded") s.inputText language s.selectedTone).1 =
      "Error: Failed to process text. quota exceeded" := by
    intro language
    simp only [refineText, callGemini,
      if_neg (refinePrompt_trim_ne language s.selectedTone s.inputText)]
    decide
  refine ⟨?_, ?_, ?_⟩
  · simp only [refineText, callGemini, if_neg (refinePrompt_trim_ne language tone text)]
    decide
  · simp only [Services.refineText, if_neg ht]
    decide
  · have hmark : jsStartsWith "Error: Failed to process text. quota exceeded" "Error:" = true := by
      decide
    unfold handleRefine
    rw [if_neg h]
    rcases htask : s.selectedTask <;>
      simp [htask, taskToLanguageMap, hb, hr, finishRefine, hmark]

/-- C3, witness state: a concrete controller state with non-blank input. -/
def quotaState : AppState :=
  { inputText := "hello there"
    selectedTask := Task'.REFINE_ENGLISH
    selectedTone := "Casual"
    outputText := ""
    isLoading := false
    apiError := none
    formError := none
    isCopied := false
    customTones := []
    customToneInput := ""
    store := "[]" }

/-- C3 witness: the quota scenario evaluated at a concrete state and input. -/
theorem quota_fault_to_apiError_witness :
    (refineText (fun _ => ApiOutcome.failure true "quota exceeded") "hi" "English" "Casual").1 =
      "Error: Failed to process text. quota exceeded" ∧
    (Services.refineText (fun _ => ApiOutcome.failure true "quota exceeded") "hi" "English" "Casual").1 =
      "Error: Failed to refine text. quota exceeded" ∧
    (handleRefine (fun _ => ApiOutcome.failure true "quota exceeded") quotaState).1.apiError =
      some "Error: Failed to process text. quota exceeded" ∧
    (handleRefine (fun _ => ApiOutcome.failure true "quota exceeded") quotaState).1.outputText = "" :=
  quota_fault_to_apiError quotaState "hi" "English" "Casual" (by decide) (by decide)

/-- Exactly one request, carrying the fixed model identifier and the fixed
sampling parameters. -/
def oneFixedCall (log : List GenRequest) : Prop :=
  log.length = 1 ∧ ∀ r ∈ log, r.model = "gemini-2.5-flash" ∧
    r.config.temperature = 0.8 ∧ r.config.topP = 0.9

/-- C4: for non-empty input text, each prompt service operation issues exactly
one API call, always with model "gemini-2.5-flash", temperature 0.8 and
top-p 0.9. -/
theorem promptService_single_fixed_call (gen : GenApi) (text language tone : String)
    (h : jsTrim text ≠ "") :
    oneFixedCall (refineText gen text language tone).2 ∧
    oneFixedCall (convertBanglishToEnglish gen text tone).2 ∧
    oneFixedCall (Services.refineText gen text language tone).2 := by
  refine ⟨?_, ?_, ?_⟩
  · simp only [refineText, callGemini, if_neg (refinePrompt_trim_ne language tone text)]
    rcases gen _ with t | isErr <;> first
      | exact ⟨rfl, by simp [oneFixedCall]⟩
      | rcases isErr <;> exact ⟨rfl, by simp [oneFixedCall]⟩
  · simp only [convertBanglishToEnglish, callGemini, if_neg (banglishPrompt_trim_ne tone text)]
    rcases gen _ with t | isErr <;> first
      | exact ⟨rfl, by simp [oneFixedCall]⟩
      | rcases isErr <;> exact ⟨rfl, by simp [oneFixedCall]⟩
  · simp only [Services.refineText, if_neg h]
    rcases gen _ with t | isErr <;> first
      | exact ⟨rfl, by simp [oneFixedCall]⟩
      | rcases isErr <;> exact ⟨rfl, by simp [oneFixedCall]⟩

/-- C4 witness: the single fixed-parameter call at a concrete oracle and
inputs. -/
theorem promptService_single_fixed_call_witness :
    oneFixedCall (refineText (fun _ => ApiOutcome.success "y") "hi" "English" "Casual").2 ∧
    oneFixedCall (convertBanglishToEnglish (fun _ => ApiOutcome.success "y") "hi" "Casual").2 ∧
    oneFixedCall (Services.refineText (fun _ => ApiOutcome.success "y") "hi" "English" "Casual").2 :=
  promptService_single_fixed_call (fun _ => ApiOutcome.success "y") "hi" "English" "Casual"
    (by decide)

/-- C5: the add-custom-tone action trims the pending input; an empty trimmed
input sets the exact empty-tone form error and leaves the list unchanged; a
case-insensitive duplicate against the combined tone list sets a form error and
leaves the list unchanged; otherwise the trimmed tone is appended and the input
field is cleared. -/
theorem handleAddCustomTone_correct (s : AppState) :
    (jsTrim s.customToneInput = "" →
      (handleAddCustomTone s).formError = some "Custom tone cannot be empty." ∧
      (handleAddCustomTone s).customTones = s.customTones) ∧
    (jsTrim s.customToneInput ≠ "" →
      ((allTones s).any fun t => jsToLower t == jsToLower (jsTrim s.customToneInput)) = true →
      (∃ e, (handleAddCustomTone s).formError = some e) ∧
      (handleAddCustomTone s).customTones = s.customTones) ∧
    (jsTrim s.customToneInput ≠ "" →
      ((allTones s).any fun t => jsToLower t == jsToLower (jsTrim s.customToneInput)) = false →
      (handleAddCustomTone s).customTones = s.customTones ++ [jsTrim s.customToneInput] ∧
      (handleAddCustomTone s).customToneInput = "") := by
  refine ⟨?_, ?_, ?_⟩ <;> intro h1 <;> try intro h2
  · simp [handleAddCustomTone, h1]
  · simp [handleAddCustomTone, h1, h2]
  · simp [handleAddCustomTone, persistTones, h1, h2]

/-- C6: the remove-custom-tone action filters the named tone out of the custom
list, and when the removed tone was the selected one the selection is reset to
the default "Professional". -/
theorem handleRemoveCustomTone_correct (s : AppState) (tone : String) :
    (handleRemoveCustomTone tone s).customTones =
      s.customTones.filter (fun t => t ≠ tone) ∧
    (s.selectedTone = tone →
      (handleRemoveCustomTone tone s).selectedTone = "Professional") := by
  unfold handleRemoveCustomTone persistTones
  by_cases hsel : s.selectedTone = tone <;> simp [hsel, Tone.PROFESSIONAL]

/-- C7, concrete blank-input state with no form error. -/
def blankState : AppState :=
  { inputText := "   "
    selectedTask := Task'.REFINE_ENGLISH
    selectedTone := "Professional"
    outputText := ""
    isLoading := false
    apiError := none
    formError := none
    isCopied := false
    customTones := []
    customToneInput := ""
    store := "[]" }

/-- C7, counterexample: on blank input the Process action leaves the form-error
state untouched (still none) and stores the message in the API-error state, so
the error is not a form error as the claim classifies it; no request is
issued. -/
theorem blank_input_error_is_not_form_error :
    (handleRefine (fun _ => ApiOutcome.success "ok") blankState).1.formError = none ∧
    (handleRefine (fun _ => ApiOutcome.success "ok") blankState).1.apiError =
      some "Please enter some text to process." ∧
    (handleRefine (fun _ => ApiOutcome.success "ok") blankState).2 = [] := by
  decide

/-- C7, amended: on blank input the Process action sets the API-error state to
the fixed message, leaves the form-error state unchanged, clears the output and
aborts without invoking the prompt service (no request issued). -/
theorem handleRefine_blank_input_aborts (gen : GenApi) (s : AppState)
    (h : jsTrim s.inputText = "") :
    (handleRefine gen s).1.apiError = some "Please enter some text to process." ∧
    (handleRefine gen s).1.formError = s.formError ∧
    (handleRefine gen s).1.outputText = "" ∧
    (handleRefine gen s).2 = [] := by
  simp [handleRefine, h]

/-- C7 witness: the amended blank-input behaviour at a concrete state. -/
theorem handleRefine_blank_input_aborts_witness :
    (handleRefine (fun _ => ApiOutcome.success "ok") blankState).1.apiError =
      some "Please enter some text to process." ∧
    (handleRefine (fun _ => ApiOutcome.success "ok") blankState).1.formError =
      blankState.formError ∧
    (handleRefine (fun _ => ApiOutcome.success "ok") blankState).1.outputText = "" ∧
    (handleRefine (fun _ => ApiOutcome.success "ok") blankState).2 = [] :=
  handleRefine_blank_input_aborts (fun _ => ApiOutcome.success "ok") blankState (by decide)

/-- The substring relation used to state prompt-content claims. -/
def containsSub (s pat : String) : Prop :=
  ∃ a b : String, s = a ++ pat ++ b

/-- C8, the scenario's concrete controller state: input "hello there", task
refine-as-English, tone "Casual". -/
def helloState : AppState :=
  { inputText := "hello there"
    selectedTask := Task'.REFINE_ENGLISH
    selectedTone := "Casual"
    outputText := ""
    isLoading := false
    apiError := none
    formError := none
    isCopied := false
    customTones := []
    customToneInput := ""
    store := "[]" }

set_option maxRecDepth 4096 in
/-- C8: with input "hello there", task refine-as-English and tone "Casual",
the Process action issues exactly one API request, whose prompt contains the
literal input text and the literal tone, and the refine operation returns the
API response text trimmed of leading and trailing whitespace. -/
theorem hello_casual_scenario (r : String) :
    (handleRefine (fun _ => ApiOutcome.success r) helloState).2.length = 1 ∧
    (∀ req ∈ (handleRefine (fun _ => ApiOutcome.success r) helloState).2,
      containsSub req.contents "hello there" ∧ containsSub req.contents "Casual") ∧
    (refineText (fun _ => ApiOutcome.success r) "hello there" "English" "Casual").1 =
      jsTrim r := by
  have hlog : (handleRefine (fun _ => ApiOutcome.success r) helloState).2 =
      [{ model := "gemini-2.5-flash"
         contents := refinePrompt "English" "Casual" "hello there"
         config :=
           { systemInstruction := refineSystemInstruction
             temperature := 0.8
             topP := 0.9 } }] := rfl
  refine ⟨?_, ?_, ?_⟩
  · rw [hlog]
    rfl
  · rw [hlog]
    intro req hreq
    rw [List.mem_singleton] at hreq
    subst hreq
    constructor
    · exact ⟨"\n    Please refine the following 'English' text into a 'Casual' tone.\n    Ensure the output remains in 'English'.\n\n    Original Text:\n    ---\n    ",
        "\n    ---\n  ", by decide⟩
    · exact ⟨"\n    Please refine the following 'English' text into a '",
        "' tone.\n    Ensure the output remains in 'English'.\n\n    Original Text:\n    ---\n    hello there\n    ---\n  ",
        by decide⟩
  · rfl

/-- C10: the remove-custom-tone action removes exactly the entries equal to
the named tone under case-sensitive string equality, and only from the custom
list — the predefined portion of the combined list is intact afterwards; when
the removed tone is not the selected one the selection is kept, and the other
controller state fields are unchanged in every case. -/
theorem handleRemoveCustomTone_frame (s : AppState) (tone : String) :
    (handleRemoveCustomTone tone s).customTones =
      s.customTones.filter (fun t => t ≠ tone) ∧
    allTones (handleRemoveCustomTone tone s) =
      predefinedTones ++ s.customTones.filter (fun t => t ≠ tone) ∧
    (s.selectedTone ≠ tone →
      (handleRemoveCustomTone tone s).selectedTone = s.selectedTone) ∧
    (handleRemoveCustomTone tone s).inputText = s.inputText ∧
    (handleRemoveCustomTone tone s).selectedTask = s.selectedTask ∧
    (handleRemoveCustomTone tone s).outputText = s.outputText ∧
    (handleRemoveCustomTone tone s).isLoading = s.isLoading ∧
    (handleRemoveCustomTone tone s).apiError = s.apiError ∧
    (handleRemoveCustomTone tone s).formError = s.formError ∧
    (handleRemoveCustomTone tone s).isCopied = s.isCopied ∧
    (handleRemoveCustomTone tone s).customToneInput = s.customToneInput := by
  unfold handleRemoveCustomTone persistTones allTones
  by_cases hsel : s.selectedTone = tone <;> simp [hsel]

/-- While inside a string literal, a character that is neither a quote nor a
backslash is consumed into the accumulator. -/
theorem pRun_step (acc : List Char) (strs : List String) (rest : List Char) (c : Char)
    (h1 : c ≠ '"') (h2 : c ≠ '\\') :
    pRun (some acc) strs (c :: rest) = pRun (some (c :: acc)) strs rest := by
  rcases rest with _ | ⟨d, ds⟩ <;> simp [pRun, h1, h2]

/-- Parsing the escaped encoding of a character list followed by the closing
quote decodes exactly that list and leaves the separator state. -/
theorem pRun_escL (cs : List Char) : ∀ acc strs rest,
    pRun (some acc) strs (escL cs ++ '"' :: rest) =
      pRun none (strs ++ [String.mk (acc.reverse ++ cs)]) rest := by
  induction cs with
  | nil =>
    intro acc strs rest
    simp [escL]
    rfl
  | cons c cs ih =>
    intro acc strs rest
    by_cases hc : c = '"' ∨ c = '\\'
    · have h1 : escL (c :: cs) ++ '"' :: rest = '\\' :: c :: (escL cs ++ '"' :: rest) := by
        simp [escL, escChar, hc]
      rw [h1]
      rw [show pRun (some acc) strs ('\\' :: c :: (escL cs ++ '"' :: rest)) =
            pRun (some (c :: acc)) strs (escL cs ++ '"' :: rest) from rfl]
      rw [ih (c :: acc) strs rest]
      simp
    · push_neg at hc
      have h1 : escL (c :: cs) ++ '"' :: rest = c :: (escL cs ++ '"' :: rest) := by
        simp [escL, escChar, hc.1, hc.2]
      rw [h1, pRun_step acc strs _ c hc.1 hc.2, ih (c :: acc) strs rest]
      simp

/-- Parsing the encoded remaining items followed by the closing bracket
appends exactly those items. -/
theorem pRun_encTail (ss : List String) : ∀ strs,
    pRun none strs (encTail ss ++ [']']) = some (strs ++ ss) := by
  induction ss with
  | nil =>
    intro strs
    simp [encTail]
    rfl
  | cons s ss ih =>
    intro strs
    have h1 : encTail (s :: ss) ++ [']'] =
        ',' :: '"' :: (escL s.data ++ '"' :: (encTail ss ++ [']'])) := by
      simp [encTail, encItem]
    rw [h1]
    rw [show pRun none strs (',' :: '"' :: (escL s.data ++ '"' :: (encTail ss ++ [']']))) =
          pRun (some []) strs (escL s.data ++ '"' :: (encTail ss ++ [']'])) from rfl]
    rw [pRun_escL s.data [] strs (encTail ss ++ [']'])]
    have h3 : String.mk (([] : List Char).reverse ++ s.data) = s := by
      simp
    rw [h3, ih (strs ++ [s])]
    simp

/-- Serializing any list of tone strings and deserializing it yields the same
list. -/
theorem json_round_trip (l : List String) :
    jsonParseList (jsonStringifyList l) = some l := by
  cases l with
  | nil => decide
  | cons s ss =>
    have hdata : (jsonStringifyList (s :: ss)).data =
        '[' :: '"' :: (escL s.data ++ '"' :: (encTail ss ++ [']'])) := by
      simp [jsonStringifyList, encItems, encItem]
    rw [jsonParseList, hdata]
    have hp : pRun (some []) [] (escL s.data ++ '"' :: (encTail ss ++ [']'])) =
        some (s :: ss) := by
      rw [pRun_escL s.data [] [] (encTail ss ++ [']'])]
      simp only [List.reverse_nil, List.nil_append]
      have h3 : String.mk s.data = s := by simp
      rw [h3, pRun_encTail ss [s]]
      simp
    simp [hp]

/-- One custom-tone operation keeps the controller list equal to the in-memory
replay and keeps the store equal to the serialized list. -/
theorem applyOp_sync (s : AppState) (op : ToneOp)
    (h : s.store = jsonStringifyList s.customTones) :
    (applyOp s op).customTones = applyOpMem s.customTones op ∧
    (applyOp s op).store = jsonStringifyList (applyOp s op).customTones := by
  cases op with
  | add i =>
    unfold applyOp handleAddCustomTone applyOpMem persistTones allTones
    by_cases h1 : jsTrim i = ""
    · simp [h1, h]
    · by_cases h2 : (predefinedTones ++ s.customTones).any
          (fun x => jsToLower x == jsToLower (jsTrim i)) = true
      · simp [h1, h2, h]
      · simp [h1, h2, h]
  | remove t =>
    unfold applyOp handleRemoveCustomTone applyOpMem persistTones
    by_cases hsel : s.selectedTone = t <;> simp [hsel]

/-- Replaying any operation sequence keeps the controller list equal to the
in-memory replay and the store equal to its serialization. -/
theorem replay_sync (ops : List ToneOp) : ∀ s : AppState,
    s.store = jsonStringifyList s.customTones →
    (replayOps s ops).customTones = replayMem s.customTones ops ∧
    (replayOps s ops).store = jsonStringifyList (replayOps s ops).customTones := by
  induction ops with
  | nil =>
    intro s h
    exact ⟨rfl, h⟩
  | cons op ops ih =>
    intro s h
    have step := applyOp_sync s op h
    have tail := ih (applyOp s op) step.2
    refine ⟨?_, ?_⟩
    · show (replayOps (applyOp s op) ops).customTones = replayMem s.customTones (op :: ops)
      rw [tail.1, step.1]
      rfl
    · exact tail.2

/-- C9: after any sequence of add and remove operations, the value persisted
to the durable store is the serialization of the list obtained by replaying
the same operations on an in-memory list, and JSON serialization of a list of
tone strings followed by deserialization yields the same list. -/
theorem persisted_tones_replay (ops : List ToneOp) (s : AppState)
    (h : s.store = jsonStringifyList s.customTones) :
    (replayOps s ops).customTones = replayMem s.customTones ops ∧
    (replayOps s ops).store = jsonStringifyList (replayMem s.customTones ops) ∧
    ∀ l : List String, jsonParseList (jsonStringifyList l) = some l := by
  have hs := replay_sync ops s h
  exact ⟨hs.1, by rw [hs.2, hs.1], fun l => json_round_trip l⟩

/-- C9, witness initial state: empty custom-tone list, store in sync. -/
def freshState : AppState :=
  { inputText := ""
    selectedTask := Task'.REFINE_ENGLISH
    selectedTone := "Professional"
    outputText := ""
    isLoading := false
    apiError := none
    formError := none
    isCopied := false
    customTones := []
    customToneInput := ""
    store := "[]" }

/-- C9 witness: the replay and round-trip property at a concrete state and a
concrete operation sequence (two adds, one remove). -/
theorem persisted_tones_replay_witness :
    (replayOps freshState [ToneOp.add " Zany ", ToneOp.add "Calm", ToneOp.remove "Zany"]).customTones =
      replayMem freshState.customTones
        [ToneOp.add " Zany ", ToneOp.add "Calm", ToneOp.remove "Zany"] ∧
    (replayOps freshState [ToneOp.add " Zany ", ToneOp.add "Calm", ToneOp.remove "Zany"]).store =
      jsonStringifyList (replayMem freshState.customTones
        [ToneOp.add " Zany ", ToneOp.add "Calm", ToneOp.remove "Zany"]) ∧
    ∀ l : List String, jsonParseList (jsonStringifyList l) = some l :=
  persisted_tones_replay [ToneOp.add " Zany ", ToneOp.add "Calm", ToneOp.remove "Zany"]
    freshState (by decide)

/-- C2 witness: the amended fault behaviour at a concrete Error-instance fault
and concrete inputs. -/
theorem promptService_fault_caught_witness :
    ((refineText (fun _ => ApiOutcome.failure true "boom") "hi" "English" "Casual").1 =
      if true then "Error: Failed to process text. " ++ "boom"
      else "An unknown error occurred while processing text.") ∧
    ((convertBanglishToEnglish (fun _ => ApiOutcome.failure true "boom") "hi" "Casual").1 =
      if true then "Error: Failed to process text. " ++ "boom"
      else "An unknown error occurred while processing text.") ∧
    ((Services.refineText (fun _ => ApiOutcome.failure true "boom") "hi" "English" "Casual").1 =
      if true then "Error: Failed to refine text. " ++ "boom"
      else "An unknown error occurred while refining text.") ∧
    jsStartsWith ("Error: Failed to process text. " ++ "boom") "Error:" = true :=
  promptService_fault_caught true "boom" "hi" "English" "Casual" (by decide)
